import Mathlib

/-!
Verification development for the picser batch-upload queue.

The definitions below are a shallow embedding of the repository's queue code:

* `RedisUploadQueue` embeds `src/unnamed/part_002` (revision at lines 1-207):
  the Upstash-Redis backed shared queue.  The Redis list is modelled as a
  `List RawEntry` whose index 0 is the head of the list, i.e. the position
  where `lpush` inserts; `lrange i j` is `(list.drop i).take (j - i + 1)` and
  `rpop` removes the last element.  A stored wire value is abstracted by
  `RawEntry`: `parse` is the result the code's `safeParse` produces for it
  (`none` when `JSON.parse` throws or the value has an unusable shape) and
  `byteSize` is the serialized length the code uses as `itemSize`.
* `processQueue` embeds `src/src/lib/queue-processor.ts`.  Remote GitHub calls
  are an oracle `GitApi` whose methods return `Except JsError _`; a thrown
  octokit error is abstracted as a `JsError` carrying its optional HTTP
  status.  The three pre-lock Redis reads can throw: `RedisIO` flags say
  which of them does, in program order.
* `UploadQueue` embeds `src/src/lib/upload-queue.ts` (revision at lines
  1-232): the in-memory ephemeral queue with its conflict-retry loop.  The
  `while (retries <= maxRetries)` loop is `attemptUploadAux`, structurally
  recursive on `budget = maxRetries - retries`.
* `getAutoSubmitThreshold` embeds the config reader (`src/unnamed/part_002`
  lines 408-415), together with a model `jsParseInt` of JavaScript's
  `parseInt(raw, 10)`.
-/

namespace Picser

/-- One queued upload request, as serialized into the Redis list
(`QueueItem` of `src/unnamed/part_002`). -/
structure QueueItem where
  filename : String
  base64Content : String
  originalName : String
  size : Nat
  type : String
  timestamp : Nat
deriving DecidableEq

/-- One raw value stored in the Redis list.  `parse` is the result of the
code's `safeParse` on it; `byteSize` is the serialized length the code uses
as `itemSize` (the raw JSON string length). -/
structure RawEntry where
  parse : Option QueueItem
  byteSize : Nat
deriving DecidableEq

/-- State of the shared Redis queue: whether the backend is configured
(`enabled`), the list under `QUEUE_KEY` (index 0 = head = `lpush` side), and
whether the `LOCK_KEY` key is present. -/
structure RedisState where
  enabled : Bool
  list : List RawEntry
  lockHeld : Bool
deriving DecidableEq

/-- `MAX_BATCH_SIZE` of `queue-processor.ts` and `upload-queue.ts`. -/
def MAX_BATCH_SIZE : Nat := 100

/-- `BATCH_TIMEOUT` (milliseconds). -/
def BATCH_TIMEOUT : Nat := 5000

/-- The byte budget `processQueue` passes to `getItems` (100MB). -/
def PQ_GETITEMS_MAX_BYTES : Nat := 100 * 1024 * 1024

namespace RedisUploadQueue

/-- The chunk size used by `getItems` to page through the list. -/
def CHUNK_SIZE : Nat := 5

/-- `size()`: `llen` of the queue list (0 when the backend is disabled). -/
def size (s : RedisState) : Nat :=
  if s.enabled then s.list.length else 0

/-- Result of the inner `for (const rawItem of chunk)` loop of `getItems`:
either the early `return items` was taken, or the chunk was consumed and the
loop continues.  Both constructors carry the accumulated items and the
`currentBytes` accumulator at that point. -/
inductive ChunkOut where
  | returned (items : List QueueItem) (bytes : Nat)
  | continued (items : List QueueItem) (bytes : Nat)

/-- The inner loop of `getItems` over one fetched chunk: skip entries whose
`safeParse` fails; before adding a parsed item, return early when the byte
budget would be exceeded and at least one item has been taken already. -/
def processChunk (maxBytes : Nat) : List RawEntry → List QueueItem → Nat → ChunkOut
  | [], items, bytes => .continued items bytes
  | e :: rest, items, bytes =>
    match e.parse with
    | none => processChunk maxBytes rest items bytes
    | some it =>
      if maxBytes < bytes + e.byteSize ∧ 0 < items.length then
        .returned items bytes
      else
        processChunk maxBytes rest (items ++ [it]) (bytes + e.byteSize)

/-- The chunked read loop of `getItems`.  `i` is the loop index of
`for (let i = 0; i < maxItems; i += CHUNK_SIZE)`; each iteration consumes one
unit of `fuel`, and the top-level call passes `fuel = maxItems`, which is
enough for every iteration the source loop can perform (the loop advances
`i` by `CHUNK_SIZE = 5 ≥ 1` each round and stops at `maxItems`). -/
def getItemsLoop (entries : List RawEntry) (maxItems maxBytes : Nat) :
    Nat → Nat → List QueueItem → Nat → List QueueItem × Nat
  | _, 0, items, bytes => (items, bytes)
  | i, fuel + 1, items, bytes =>
    if i < maxItems then
      if maxBytes ≤ bytes then (items, bytes)
      else
        let rangeEnd := min (i + CHUNK_SIZE) maxItems - 1
        let chunk := (entries.drop i).take (rangeEnd - i + 1)
        if chunk.length = 0 then (items, bytes)
        else
          match processChunk maxBytes chunk items bytes with
          | .returned its bs => (its, bs)
          | .continued its bs =>
            if chunk.length < CHUNK_SIZE then (its, bs)
            else getItemsLoop entries maxItems maxBytes (i + CHUNK_SIZE) fuel its bs
    else (items, bytes)

/-- `getItems(maxItems, maxBytes)` at the list level, also exposing the
final `currentBytes` accumulator (the cumulative serialized size of the
returned items). -/
def getItemsB (entries : List RawEntry) (maxItems maxBytes : Nat) :
    List QueueItem × Nat :=
  getItemsLoop entries maxItems maxBytes 0 maxItems [] 0

/-- `getItems(maxItems, maxBytes)` of `RedisUploadQueue`. -/
def getItems (s : RedisState) (maxItems maxBytes : Nat) : List QueueItem :=
  if s.enabled then (getItemsB s.list maxItems maxBytes).1 else []

/-- The loop body of `removeItems`: `count` successive `rpop` calls, each
removing the tail (last) element of the list. -/
def removeItemsList : Nat → List RawEntry → List RawEntry
  | 0, l => l
  | n + 1, l => removeItemsList n l.dropLast

/-- `removeItems(count)` of `RedisUploadQueue`. -/
def removeItems (count : Nat) (s : RedisState) : RedisState :=
  if s.enabled then { s with list := removeItemsList count s.list } else s

/-- `acquireLock()`: `SET LOCK_KEY .. NX PX`, succeeding only when the key is
absent.  Returns the success flag and the new state. -/
def acquireLock (s : RedisState) : Bool × RedisState :=
  if s.enabled then
    if s.lockHeld then (false, s) else (true, { s with lockHeld := true })
  else (false, s)

/-- `releaseLock()`: unconditional `DEL LOCK_KEY`. -/
def releaseLock (s : RedisState) : RedisState :=
  if s.enabled then { s with lockHeld := false } else s

/-- `shouldProcess()`: false when disabled, when the queue is empty, or when
the lock key exists; true otherwise. -/
def shouldProcess (s : RedisState) : Bool :=
  if s.enabled then
    if size s = 0 then false else !s.lockHeld
  else false

/-- `getOldestTimestamp()`: `lrange(QUEUE_KEY, -1, -1)` reads the tail (the
oldest element under the push-at-head convention); `safeParse` failure or an
empty list yields `null`. -/
def getOldestTimestamp (s : RedisState) : Option Nat :=
  if s.enabled then
    match s.list.getLast? with
    | none => none
    | some e =>
      match e.parse with
      | some it => some it.timestamp
      | none => none
  else none

end RedisUploadQueue

/-- Model of JavaScript `parseInt(raw, 10)`: skip leading whitespace, read an
optional sign, then the longest run of decimal digits; no digits means `NaN`,
here `none`. -/
def jsParseIntDigits : List Char → Nat → Nat
  | [], acc => acc
  | c :: rest, acc =>
    if c.isDigit then jsParseIntDigits rest (acc * 10 + (c.toNat - 48)) else acc

/-- See `jsParseIntDigits`; `none` models `NaN`. -/
def jsParseInt (s : String) : Option Int :=
  let cs := s.toList.dropWhile Char.isWhitespace
  let signAndRest : Int × List Char :=
    match cs with
    | '-' :: rest => (-1, rest)
    | '+' :: rest => (1, rest)
    | _ => (1, cs)
  match signAndRest.2 with
  | [] => none
  | c :: _ =>
    if c.isDigit then some (signAndRest.1 * (jsParseIntDigits signAndRest.2 0 : Int))
    else none

/-- `getAutoSubmitThreshold()` of the config module: `env` is the value of the
`AUTO_SUBMIT_THRESHOLD` environment variable (`none` when unset).  An unset or
empty value is falsy, so the parse is skipped; a parsed value is returned only
when positive; everything else falls back to 20. -/
def getAutoSubmitThreshold (env : Option String) : Int :=
  match env with
  | none => 20
  | some raw =>
    if raw = "" then 20
    else
      match jsParseInt raw with
      | some parsed => if 0 < parsed then parsed else 20
      | none => 20

/-- A thrown octokit/JavaScript error, abstracted to the only datum the code
inspects: its `status` field (absent on non-HTTP errors). -/
structure JsError where
  status : Option Nat
deriving DecidableEq

/-- One entry of the tree passed to `createTree`; `mode: "100644"` and
`type: "blob"` are constants in the source and are omitted. -/
structure TreeEntry where
  path : String
  sha : String
deriving DecidableEq

/-- Oracle for one pass over the GitHub remote API: the outcomes of
`getRef`, `getCommit`, `createBlob`, `createTree`, `createCommit` and
`updateRef` for this batch-commit attempt. -/
structure GitApi where
  getRef : Except JsError String
  getCommit : String → Except JsError String
  createBlob : String → Except JsError String
  createTree : String → List TreeEntry → Except JsError String
  createCommit : String → String → String → Except JsError String
  updateRef : String → Except JsError Unit

/-- The commit-message construction shared verbatim by `uploadBatch`
(`upload-queue.ts`) and the queue processor: `n` is the batch length and
`fileNames` the comma-joined original names. -/
def commitMessage (n : Nat) (fileNames : String) : String :=
  if n = 1 then "Upload image: " ++ fileNames
  else
    "Batch upload " ++ toString n ++ " images: " ++ fileNames.take 100 ++
      (if 100 < fileNames.length then "..." else "")

/-- The inline batch-commit sequence of `processQueue`
(`queue-processor.ts` lines 134-196): read ref, read commit tree, create one
blob per item, create the layered tree, create the commit, update the branch
ref.  Returns the new commit sha. -/
def processCommit (api : GitApi) (items : List QueueItem) : Except JsError String :=
  match api.getRef with
  | .error e => .error e
  | .ok currentCommitSha =>
    match api.getCommit currentCommitSha with
    | .error e => .error e
    | .ok currentTreeSha =>
      match items.mapM (fun item =>
          Except.map (fun sha => TreeEntry.mk item.filename sha)
            (api.createBlob item.base64Content)) with
      | .error e => .error e
      | .ok blobs =>
        match api.createTree currentTreeSha blobs with
        | .error e => .error e
        | .ok newTreeSha =>
          let fileNames := String.intercalate ", " (items.map (·.originalName))
          match api.createCommit (commitMessage items.length fileNames)
              newTreeSha currentCommitSha with
          | .error e => .error e
          | .ok newCommitSha =>
            match api.updateRef newCommitSha with
            | .error e => .error e
            | .ok _ => .ok newCommitSha

/-- Which of the three pre-lock Redis reads of `processQueue`
(`shouldProcess()`, `size()`, `getOldestTimestamp()`) throws, in program
order.  A thrown read lands in the outer `catch`. -/
structure RedisIO where
  spFails : Bool
  sizeFails : Bool
  oldestFails : Bool
deriving DecidableEq

/-- The structured report `processQueue` returns (collapsing the message
strings of `QueueProcessResult` to the branch that produced them). -/
inductive PQOutcome where
  | disabled
  | busyOrEmpty
  | notReadyYet (queueSize waitingTime : Nat)
  | contended
  | empty
  | success (batchSize : Nat) (commitSha : String)
  | failure
deriving DecidableEq

/-- `true` exactly on the committed-and-removed branch. -/
def PQOutcome.isSuccess : PQOutcome → Bool
  | .success _ _ => true
  | _ => false

/-- The `isOldEnough` local of `processQueue`:
`typeof oldestTimestamp === "number" && Date.now() - oldestTimestamp >= BATCH_TIMEOUT`. -/
def pqIsOldEnough (now : Nat) (s : RedisState) : Bool :=
  match RedisUploadQueue.getOldestTimestamp s with
  | some t => decide (BATCH_TIMEOUT ≤ now - t)
  | none => false

/-- The `isFull` local of `processQueue`: `queueSize >= AUTO_SUBMIT_THRESHOLD`. -/
def pqIsFull (threshold : Nat) (s : RedisState) : Bool :=
  decide (threshold ≤ RedisUploadQueue.size s)

/-- The `waitingTime` report field of `processQueue`:
`oldestTimestamp ? Date.now() - oldestTimestamp : 0`. -/
def pqWaitingTime (now : Nat) (s : RedisState) : Nat :=
  match RedisUploadQueue.getOldestTimestamp s with
  | some t => now - t
  | none => 0

/-- `processQueue()` of `queue-processor.ts`.  `isServerless` is the
environment probe, `threshold` the value of `getAutoSubmitThreshold()`,
`now` is `Date.now()`.  The `try`/`finally`/`catch` structure is translated
branch by branch: the inner `finally` releases the lock on every exit of the
locked section, and the outer `catch` releases it again on any thrown error
(including errors thrown before the lock was acquired).  The dead in-memory
branch (`if (!useRedis)` after the early `!useRedis` return) is omitted. -/
def processQueue (isServerless : Bool) (threshold now : Nat) (io : RedisIO)
    (api : GitApi) (s : RedisState) : PQOutcome × RedisState :=
  if !s.enabled || isServerless then (.disabled, s)
  else if io.spFails then (.failure, RedisUploadQueue.releaseLock s)
  else if io.sizeFails then (.failure, RedisUploadQueue.releaseLock s)
  else if io.oldestFails then (.failure, RedisUploadQueue.releaseLock s)
  else if !RedisUploadQueue.shouldProcess s then (.busyOrEmpty, s)
  else if !pqIsOldEnough now s && !pqIsFull threshold s then
    (.notReadyYet (RedisUploadQueue.size s) (pqWaitingTime now s), s)
  else
    match RedisUploadQueue.acquireLock s with
    | (false, s1) => (.contended, s1)
    | (true, s1) =>
      if (RedisUploadQueue.getItems s1 MAX_BATCH_SIZE PQ_GETITEMS_MAX_BYTES).length = 0 then
        (.empty, RedisUploadQueue.releaseLock (RedisUploadQueue.releaseLock s1))
      else
        match processCommit api
            (RedisUploadQueue.getItems s1 MAX_BATCH_SIZE PQ_GETITEMS_MAX_BYTES) with
        | .ok sha =>
          (.success (RedisUploadQueue.getItems s1 MAX_BATCH_SIZE
              PQ_GETITEMS_MAX_BYTES).length sha,
            RedisUploadQueue.releaseLock
              (RedisUploadQueue.removeItems
                (RedisUploadQueue.getItems s1 MAX_BATCH_SIZE
                  PQ_GETITEMS_MAX_BYTES).length s1))
        | .error _ =>
          (.failure,
            RedisUploadQueue.releaseLock (RedisUploadQueue.releaseLock s1))

/-- One item of the in-memory `UploadQueue` (`QueueItem` of
`upload-queue.ts`): destination path, payload, and the `File` fields the code
reads (`name`, `size`, `type`).  The `resolve`/`reject` callbacks are
represented by the `Completion` each item receives from `processBatch`. -/
structure EphItem where
  filename : String
  base64Content : String
  fileName : String
  fileSize : Nat
  fileType : String
deriving DecidableEq

/-- The six URL variants of a batch result. -/
structure BatchUrls where
  github : String
  raw : String
  jsdelivr : String
  github_commit : String
  raw_commit : String
  jsdelivr_commit : String
deriving DecidableEq

/-- The per-item result object `uploadBatch` builds after a successful
commit. -/
structure BatchResult where
  success : Bool
  url : String
  urls : BatchUrls
  filename : String
  size : Nat
  type : String
  commit_sha : String
  batch_size : Nat
  github_url : String
deriving DecidableEq

/-- The result object of `uploadBatch` for one item (source lines 210-227). -/
def mkBatchResult (owner repo branch newCommitSha : String) (batchSize : Nat)
    (item : EphItem) : BatchResult :=
  let rawUrl := "https://raw.githubusercontent.com/" ++ owner ++ "/" ++ repo ++ "/" ++
    branch ++ "/" ++ item.filename
  let githubUrl := "https://github.com/" ++ owner ++ "/" ++ repo ++ "/blob/" ++
    branch ++ "/" ++ item.filename
  { success := true
    url := rawUrl
    urls :=
      { github := githubUrl
        raw := rawUrl
        jsdelivr := "https://cdn.jsdelivr.net/gh/" ++ owner ++ "/" ++ repo ++ "@" ++
          branch ++ "/" ++ item.filename
        github_commit := "https://github.com/" ++ owner ++ "/" ++ repo ++ "/blob/" ++
          newCommitSha ++ "/" ++ item.filename
        raw_commit := "https://raw.githubusercontent.com/" ++ owner ++ "/" ++ repo ++
          "/" ++ newCommitSha ++ "/" ++ item.filename
        jsdelivr_commit := "https://cdn.jsdelivr.net/gh/" ++ owner ++ "/" ++ repo ++
          "@" ++ newCommitSha ++ "/" ++ item.filename }
    filename := item.filename
    size := item.fileSize
    type := item.fileType
    commit_sha := newCommitSha
    batch_size := batchSize
    github_url := githubUrl }

/-- `uploadBatch(batch)` of `upload-queue.ts`: one full commit attempt — read
ref, read commit tree, one blob per file, new tree, new commit (message built
by `commitMessage` over the joined `file.name`s), non-force ref update — then
one `BatchResult` per item, positionally. -/
def uploadBatch (api : GitApi) (batch : List EphItem) (owner repo branch : String) :
    Except JsError (List BatchResult) :=
  match api.getRef with
  | .error e => .error e
  | .ok currentCommitSha =>
    match api.getCommit currentCommitSha with
    | .error e => .error e
    | .ok currentTreeSha =>
      match batch.mapM (fun item =>
          Except.map (fun sha => TreeEntry.mk item.filename sha)
            (api.createBlob item.base64Content)) with
      | .error e => .error e
      | .ok blobs =>
        match api.createTree currentTreeSha blobs with
        | .error e => .error e
        | .ok newTreeSha =>
          let fileNames := String.intercalate ", " (batch.map (·.fileName))
          match api.createCommit (commitMessage batch.length fileNames)
              newTreeSha currentCommitSha with
          | .error e => .error e
          | .ok newCommitSha =>
            match api.updateRef newCommitSha with
            | .error e => .error e
            | .ok _ =>
              .ok (batch.map (mkBatchResult owner repo branch newCommitSha batch.length))

/-- `maxRetries` of the `processBatch` retry loop. -/
def MAX_RETRIES : Nat := 3

/-- The status test of the retry loop:
`error.status === 422 || error.status === 409`. -/
def isRetryable (e : JsError) : Bool :=
  e.status == some 422 || e.status == some 409

/-- The `while (retries <= maxRetries && !results)` loop of `processBatch`.
`upload k` is the outcome of calling `this.uploadBatch(batch)` on attempt
`k`; `retries` is the loop counter and `budget = MAX_RETRIES - retries` the
number of retries still allowed, which makes the recursion structural.
Returns the final outcome and the list of backoff delays the loop slept
(`Math.pow(2, retries) * 500` after each increment of `retries`). -/
def attemptUploadAux (upload : Nat → Except JsError α) :
    Nat → Nat → Except JsError α × List Nat
  | retries, budget =>
    match upload retries with
    | .ok a => (.ok a, [])
    | .error e =>
      if isRetryable e then
        match budget with
        | 0 => (.error e, [])
        | b + 1 =>
          let waitTime := 2 ^ (retries + 1) * 500
          let rec' := attemptUploadAux upload (retries + 1) b
          (rec'.1, waitTime :: rec'.2)
      else (.error e, [])

/-- The retry loop started at `retries = 0` with all `maxRetries = 3`
retries available. -/
def attemptUpload (upload : Nat → Except JsError α) : Except JsError α × List Nat :=
  attemptUploadAux upload 0 MAX_RETRIES

/-- How one queued item's pending promise is settled: `resolve(results[index])`
(where `results[index]` can be `undefined`, hence `Option`) or
`reject(error)`. -/
inductive Completion where
  | resolved (r : Option BatchResult)
  | rejected (e : JsError)
deriving DecidableEq

/-- Observable outcome of one `processBatch()` run: the spliced batch, the
completion each batch item received (positionally aligned with `batch`), the
items left in the queue, and the backoff delays slept by the retry loop. -/
structure PBOut where
  batch : List EphItem
  completions : List Completion
  remaining : List EphItem
  delays : List Nat
deriving DecidableEq

/-- `processBatch()` of `upload-queue.ts`: no-op under the re-entrancy guard
or on an empty queue; otherwise splice off up to `MAX_BATCH_SIZE` items,
run `uploadBatch` under the retry loop (`apis k` is the GitHub oracle seen by
attempt `k`), then resolve every item with `results[index]` on success or
reject every item with the terminating error on failure. -/
def processBatch (queue : List EphItem) (processingLock : Bool)
    (apis : Nat → GitApi) (owner repo branch : String) : PBOut :=
  if processingLock then ⟨[], [], queue, []⟩
  else if queue.length = 0 then ⟨[], [], queue, []⟩
  else
    let batch := queue.take MAX_BATCH_SIZE
    let rest := queue.drop MAX_BATCH_SIZE
    let att := attemptUpload (fun k => uploadBatch (apis k) batch owner repo branch)
    match att.1 with
    | .ok results =>
      ⟨batch, (List.range batch.length).map (fun i => .resolved (results.get? i)),
        rest, att.2⟩
    | .error e => ⟨batch, batch.map (fun _ => .rejected e), rest, att.2⟩

/-! ### Derived projections and helper lemmas -/

/-- The items `safeParse` extracts from a raw segment, in order. -/
def parsedOf (l : List RawEntry) : List QueueItem := l.filterMap RawEntry.parse

/-- Contribution of one raw entry to the `currentBytes` accumulator of
`getItems`: its serialized size when it parses, nothing when it is
skipped. -/
def entryWeight (e : RawEntry) : Nat :=
  match e.parse with
  | some _ => e.byteSize
  | none => 0

/-- Cumulative serialized size of the parseable entries of a raw segment. -/
def weightOf (l : List RawEntry) : Nat := (l.map entryWeight).sum

theorem parsedOf_append (l1 l2 : List RawEntry) :
    parsedOf (l1 ++ l2) = parsedOf l1 ++ parsedOf l2 := by
  simp [parsedOf]

theorem weightOf_append (l1 l2 : List RawEntry) :
    weightOf (l1 ++ l2) = weightOf l1 + weightOf l2 := by
  simp [weightOf]

theorem take_split {α : Type} (l : List α) :
    ∀ i k, l.take (i + k) = l.take i ++ (l.drop i).take k := by
  induction l with
  | nil => intro i k; simp
  | cons a t ih =>
    intro i k
    cases i with
    | zero => simp
    | succ i => simp [Nat.succ_add, ih i k]

theorem take_len_take {α : Type} (l : List α) (k : Nat) :
    l.take ((l.take k).length) = l.take k := by
  rcases le_or_lt k l.length with h | h
  · simp [List.length_take, Nat.min_eq_left h]
  · rw [List.take_of_length_le h.le]
    exact List.take_length l

namespace RedisUploadQueue

/-- Items accumulated at a point of the `getItems` scan. -/
def ChunkOut.items : ChunkOut → List QueueItem
  | .returned its _ => its
  | .continued its _ => its

/-- `currentBytes` at a point of the `getItems` scan. -/
def ChunkOut.bytes : ChunkOut → Nat
  | .returned _ b => b
  | .continued _ b => b

/-- Invariant of the `getItems` accumulators: the byte budget is respected
except possibly by a single first item, and no bytes are counted while no
item has been taken. -/
def BytesInv (maxBytes : Nat) (items : List QueueItem) (bytes : Nat) : Prop :=
  (bytes ≤ maxBytes ∨ items.length = 1) ∧ (items = [] → bytes = 0)

theorem processChunk_cons_none {maxBytes : Nat} {e : RawEntry} {rest : List RawEntry}
    {items : List QueueItem} {bytes : Nat} (hp : e.parse = none) :
    processChunk maxBytes (e :: rest) items bytes =
      processChunk maxBytes rest items bytes := by
  simp [processChunk, hp]

theorem processChunk_cons_stop {maxBytes : Nat} {e : RawEntry} {rest : List RawEntry}
    {items : List QueueItem} {bytes : Nat} {it : QueueItem} (hp : e.parse = some it)
    (hg : maxBytes < bytes + e.byteSize ∧ 0 < items.length) :
    processChunk maxBytes (e :: rest) items bytes = .returned items bytes := by
  simp [processChunk, hp, hg]

theorem processChunk_cons_push {maxBytes : Nat} {e : RawEntry} {rest : List RawEntry}
    {items : List QueueItem} {bytes : Nat} {it : QueueItem} (hp : e.parse = some it)
    (hg : ¬ (maxBytes < bytes + e.byteSize ∧ 0 < items.length)) :
    processChunk maxBytes (e :: rest) items bytes =
      processChunk maxBytes rest (items ++ [it]) (bytes + e.byteSize) := by
  simp only [processChunk, hp]
  rw [if_neg hg]

/-- The inner chunk scan appends the parsed items of a chunk segment to the
accumulator and adds their weights to `currentBytes`: either the whole chunk
is consumed (`continued`) or an early return happens after some number `j` of
its entries (`returned`). -/
theorem processChunk_spec (maxBytes : Nat) :
    ∀ (chunk : List RawEntry) (items : List QueueItem) (bytes : Nat),
      processChunk maxBytes chunk items bytes =
          .continued (items ++ parsedOf chunk) (bytes + weightOf chunk) ∨
        ∃ j, j ≤ chunk.length ∧
          processChunk maxBytes chunk items bytes =
            .returned (items ++ parsedOf (chunk.take j))
              (bytes + weightOf (chunk.take j)) := by
  intro chunk
  induction chunk with
  | nil =>
    intro items bytes
    exact Or.inl (by simp [processChunk, parsedOf, weightOf])
  | cons e rest ih =>
    intro items bytes
    cases hp : e.parse with
    | none =>
      rw [processChunk_cons_none hp]
      rcases ih items bytes with h | ⟨j, hj, h⟩
      · refine Or.inl ?_
        rw [h]
        have h1 : parsedOf (e :: rest) = parsedOf rest := by simp [parsedOf, hp]
        have h2 : weightOf (e :: rest) = weightOf rest := by
          simp [weightOf, entryWeight, hp]
        rw [h1, h2]
      · refine Or.inr ⟨j + 1, by simpa using hj, ?_⟩
        rw [List.take_succ_cons, h]
        have h1 : parsedOf (e :: rest.take j) = parsedOf (rest.take j) := by
          simp [parsedOf, hp]
        have h2 : weightOf (e :: rest.take j) = weightOf (rest.take j) := by
          simp [weightOf, entryWeight, hp]
        rw [h1, h2]
    | some it =>
      by_cases hg : maxBytes < bytes + e.byteSize ∧ 0 < items.length
      · rw [processChunk_cons_stop hp hg]
        exact Or.inr ⟨0, Nat.zero_le _, by simp [parsedOf, weightOf]⟩
      · rw [processChunk_cons_push hp hg]
        rcases ih (items ++ [it]) (bytes + e.byteSize) with h | ⟨j, hj, h⟩
        · refine Or.inl ?_
          rw [h]
          have h1 : parsedOf (e :: rest) = it :: parsedOf rest := by
            simp [parsedOf, hp]
          have h2 : weightOf (e :: rest) = e.byteSize + weightOf rest := by
            simp [weightOf, entryWeight, hp]
          rw [h1, h2]
          congr 1
          · simp
          · omega
        · refine Or.inr ⟨j + 1, by simpa using hj, ?_⟩
          rw [List.take_succ_cons, h]
          have h1 : parsedOf (e :: rest.take j) = it :: parsedOf (rest.take j) := by
            simp [parsedOf, hp]
          have h2 : weightOf (e :: rest.take j) = e.byteSize + weightOf (rest.take j) := by
            simp [weightOf, entryWeight, hp]
          rw [h1, h2]
          congr 1
          · simp
          · omega

/-- The chunk scan preserves the byte-budget invariant. -/
theorem processChunk_inv (maxBytes : Nat) :
    ∀ (chunk : List RawEntry) (items : List QueueItem) (bytes : Nat),
      BytesInv maxBytes items bytes →
      BytesInv maxBytes (processChunk maxBytes chunk items bytes).items
        (processChunk maxBytes chunk items bytes).bytes := by
  intro chunk
  induction chunk with
  | nil =>
    intro items bytes h
    simpa [processChunk, ChunkOut.items, ChunkOut.bytes] using h
  | cons e rest ih =>
    intro items bytes h
    cases hp : e.parse with
    | none =>
      rw [processChunk_cons_none hp]
      exact ih items bytes h
    | some it =>
      by_cases hg : maxBytes < bytes + e.byteSize ∧ 0 < items.length
      · rw [processChunk_cons_stop hp hg]
        simpa [ChunkOut.items, ChunkOut.bytes] using h
      · rw [processChunk_cons_push hp hg]
        refine ih _ _ ⟨?_, by simp⟩
        by_cases hb : bytes + e.byteSize ≤ maxBytes
        · exact Or.inl hb
        · right
          have hil : items = [] := by
            have hnp : ¬ 0 < items.length := fun hpos => hg ⟨by omega, hpos⟩
            simpa [List.length_eq_zero] using hnp
          simp [hil]

theorem parsedOf_length_le (l : List RawEntry) : (parsedOf l).length ≤ l.length :=
  List.length_filterMap_le _ _

/-- Main invariant of the chunked `getItems` scan: started at index `i` with
the accumulators describing the already-scanned raw segment `entries.take i`,
the loop ends with accumulators describing `entries.take m` for some `m`,
the byte-budget invariant holds, and at most `maxItems - i` further items
were taken. -/
theorem getItemsLoop_spec (entries : List RawEntry) (maxItems maxBytes : Nat) :
    ∀ (fuel i : Nat),
      BytesInv maxBytes (parsedOf (entries.take i)) (weightOf (entries.take i)) →
      ∃ m, getItemsLoop entries maxItems maxBytes i fuel
            (parsedOf (entries.take i)) (weightOf (entries.take i)) =
          (parsedOf (entries.take m), weightOf (entries.take m)) ∧
        BytesInv maxBytes (parsedOf (entries.take m)) (weightOf (entries.take m)) ∧
        (parsedOf (entries.take m)).length ≤
          (parsedOf (entries.take i)).length + (maxItems - i) := by
  intro fuel
  induction fuel with
  | zero =>
    intro i h
    exact ⟨i, by simp [getItemsLoop], h, by omega⟩
  | succ fuel ih =>
    intro i h
    have hCS : CHUNK_SIZE = 5 := rfl
    by_cases hi : i < maxItems
    · by_cases hb : maxBytes ≤ weightOf (entries.take i)
      · refine ⟨i, ?_, h, by omega⟩
        simp only [getItemsLoop]
        rw [if_pos hi, if_pos hb]
      · simp only [getItemsLoop]
        rw [if_pos hi, if_neg hb]
        set req := min (i + CHUNK_SIZE) maxItems - 1 - i + 1 with hreq
        set chunk := (entries.drop i).take req with hchunkdef
        have hreq5 : req ≤ CHUNK_SIZE := by
          have h1 := Nat.min_le_left (i + CHUNK_SIZE) maxItems
          simp only [hreq]
          omega
        have hreqmi : req ≤ maxItems - i := by
          have h2 := Nat.min_le_right (i + CHUNK_SIZE) maxItems
          simp only [hreq]
          omega
        have hclen : chunk.length ≤ req := by
          simp only [hchunkdef]
          exact List.length_take_le _ _
        have htakechunk : entries.take (i + req) = entries.take i ++ chunk := by
          rw [take_split entries i req, hchunkdef]
        by_cases hc0 : chunk.length = 0
        · exact ⟨i, by rw [if_pos hc0], h, by omega⟩
        · rw [if_neg hc0]
          rcases processChunk_spec maxBytes chunk (parsedOf (entries.take i))
              (weightOf (entries.take i)) with hcont | ⟨j, hj, hret⟩
          · -- whole chunk consumed
            have hinv2 := processChunk_inv maxBytes chunk (parsedOf (entries.take i))
              (weightOf (entries.take i)) h
            rw [hcont] at hinv2
            have heqi : parsedOf (entries.take i) ++ parsedOf chunk =
                parsedOf (entries.take (i + req)) := by
              rw [htakechunk, parsedOf_append]
            have heqw : weightOf (entries.take i) + weightOf chunk =
                weightOf (entries.take (i + req)) := by
              rw [htakechunk, weightOf_append]
            have hlen2 : (parsedOf (entries.take (i + req))).length ≤
                (parsedOf (entries.take i)).length + req := by
              rw [← heqi]
              have := parsedOf_length_le chunk
              simp only [List.length_append]
              omega
            simp only [hcont]
            by_cases hlt : chunk.length < CHUNK_SIZE
            · rw [if_pos hlt]
              refine ⟨i + req, by rw [heqi, heqw], ?_, ?_⟩
              · simpa [ChunkOut.items, ChunkOut.bytes, heqi, heqw] using hinv2
              · omega
            · rw [if_neg hlt]
              have hreq5' : req = CHUNK_SIZE := by omega
              have hi5 : i + CHUNK_SIZE ≤ maxItems := by omega
              have hinv3 : BytesInv maxBytes
                  (parsedOf (entries.take (i + CHUNK_SIZE)))
                  (weightOf (entries.take (i + CHUNK_SIZE))) := by
                rw [← hreq5']
                rw [← heqi, ← heqw]
                simpa [ChunkOut.items, ChunkOut.bytes] using hinv2
              obtain ⟨m, hm1, hm2, hm3⟩ := ih (i + CHUNK_SIZE) hinv3
              refine ⟨m, ?_, hm2, ?_⟩
              · rw [← hm1]
                congr 1
                · rw [← hreq5']
                  exact heqi
                · rw [← hreq5']
                  exact heqw
              · have : (parsedOf (entries.take (i + CHUNK_SIZE))).length ≤
                    (parsedOf (entries.take i)).length + CHUNK_SIZE := by
                  rw [← hreq5']
                  exact hlen2
                omega
          · -- early return inside the chunk
            have hinv2 := processChunk_inv maxBytes chunk (parsedOf (entries.take i))
              (weightOf (entries.take i)) h
            rw [hret] at hinv2
            have hjreq : j ≤ req := le_trans hj hclen
            have hchunkj : chunk.take j = (entries.drop i).take j := by
              rw [hchunkdef, List.take_take, Nat.min_eq_left hjreq]
            have heqi : parsedOf (entries.take i) ++ parsedOf (chunk.take j) =
                parsedOf (entries.take (i + j)) := by
              rw [take_split entries i j, parsedOf_append, hchunkj]
            have heqw : weightOf (entries.take i) + weightOf (chunk.take j) =
                weightOf (entries.take (i + j)) := by
              rw [take_split entries i j, weightOf_append, hchunkj]
            simp only [hret]
            refine ⟨i + j, by rw [heqi, heqw], ?_, ?_⟩
            · simpa [ChunkOut.items, ChunkOut.bytes, heqi, heqw] using hinv2
            · have : (parsedOf (entries.take (i + j))).length ≤
                  (parsedOf (entries.take i)).length + j := by
                rw [← heqi]
                have h1 := parsedOf_length_le (chunk.take j)
                have h2 := List.length_take_le j chunk
                simp only [List.length_append]
                omega
              omega
    · exact ⟨i, by simp [getItemsLoop, hi], h, by omega⟩

/-- `getItems` over a queue list: the result is exactly the parseable items
of a raw-list initial segment (unparseable entries inside it are skipped,
not fatal), at most `maxItems` items are returned, and the accumulated byte
count of the result both equals the weight of that segment and respects
`maxBytes` unless the result is a single oversized item. -/
theorem getItemsB_spec (entries : List RawEntry) (maxItems maxBytes : Nat) :
    ∃ m, getItemsB entries maxItems maxBytes =
        (parsedOf (entries.take m), weightOf (entries.take m)) ∧
      (parsedOf (entries.take m)).length ≤ maxItems ∧
      (weightOf (entries.take m) ≤ maxBytes ∨
        (parsedOf (entries.take m)).length = 1) := by
  have h0 : BytesInv maxBytes (parsedOf (entries.take 0)) (weightOf (entries.take 0)) := by
    constructor
    · left
      simp [weightOf, parsedOf]
    · intro _
      simp [weightOf]
  obtain ⟨m, hm1, hm2, hm3⟩ := getItemsLoop_spec entries maxItems maxBytes maxItems 0 h0
  refine ⟨m, ?_, ?_, hm2.1⟩
  · simpa [getItemsB, parsedOf, weightOf] using hm1
  · simpa [parsedOf, weightOf] using hm3

end RedisUploadQueue

/-! ### Batch committer and retry-loop lemmas -/

theorem uploadBatch_ok_shape {api : GitApi} {batch : List EphItem} {o r b : String}
    {rs : List BatchResult} (h : uploadBatch api batch o r b = .ok rs) :
    ∃ sha, rs = batch.map (mkBatchResult o r b sha batch.length) := by
  unfold uploadBatch at h
  split at h
  · exact absurd h (by simp)
  · split at h
    · exact absurd h (by simp)
    · split at h
      · exact absurd h (by simp)
      · split at h
        · exact absurd h (by simp)
        · dsimp only at h
          split at h
          · exact absurd h (by simp)
          · split at h
            · exact absurd h (by simp)
            · injection h with h1
              exact ⟨_, h1.symm⟩

theorem attemptUploadAux_ok_exists {α : Type} (upload : Nat → Except JsError α) :
    ∀ (b r : Nat) (a : α),
      (attemptUploadAux upload r b).1 = .ok a → ∃ k, upload k = .ok a := by
  intro b
  induction b with
  | zero =>
    intro r a h
    unfold attemptUploadAux at h
    cases hu : upload r with
    | ok a2 =>
      rw [hu] at h
      exact ⟨r, hu.trans (by simpa using h)⟩
    | error e =>
      rw [hu] at h
      by_cases hr : isRetryable e = true <;> simp [hr] at h
  | succ b ih =>
    intro r a h
    unfold attemptUploadAux at h
    cases hu : upload r with
    | ok a2 =>
      rw [hu] at h
      exact ⟨r, hu.trans (by simpa using h)⟩
    | error e =>
      rw [hu] at h
      by_cases hr : isRetryable e = true
      · simp only [hr, if_true] at h
        exact ih (r + 1) a (by simpa using h)
      · simp [hr] at h

/-- Retry-loop run that succeeds at attempt `r + j` after `j` retryable
failures: the result is the success value, with the backoff delays
`2 ^ (retries) * 500` for each intermediate retry counter value. -/
theorem attemptUploadAux_ok_run {α : Type} (upload : Nat → Except JsError α) :
    ∀ (j b r : Nat) (a : α), j ≤ b →
      (∀ k, r ≤ k → k < r + j → ∃ e, upload k = .error e ∧ isRetryable e = true) →
      upload (r + j) = .ok a →
      attemptUploadAux upload r b =
        (.ok a, (List.range j).map (fun t => 2 ^ (r + t + 1) * 500)) := by
  intro j
  induction j with
  | zero =>
    intro b r a _ _ hok
    rw [Nat.add_zero] at hok
    unfold attemptUploadAux
    simp [hok]
  | succ j ih =>
    intro b r a hjb hconf hok
    obtain ⟨e, he, hre⟩ := hconf r (le_refl r) (by omega)
    cases b with
    | zero => omega
    | succ b =>
      unfold attemptUploadAux
      simp only [he, hre, if_true]
      have hok' : upload (r + 1 + j) = .ok a := by
        have hadd : r + 1 + j = r + (j + 1) := by omega
        rw [hadd]
        exact hok
      have hconf' : ∀ k, r + 1 ≤ k → k < r + 1 + j →
          ∃ e2, upload k = .error e2 ∧ isRetryable e2 = true := by
        intro k hk1 hk2
        exact hconf k (by omega) (by omega)
      rw [ih b (r + 1) a (by omega) hconf' hok']
      have hfun : ((fun t => 2 ^ (r + t + 1) * 500) ∘ Nat.succ) =
          (fun t => 2 ^ (r + 1 + t + 1) * 500) := by
        funext t
        simp only [Function.comp_apply, Nat.succ_eq_add_one]
        have harith : r + (t + 1) + 1 = r + 1 + t + 1 := by omega
        rw [harith]
      simp [List.range_succ_eq_map, List.map_map, hfun]

/-- Retry-loop run in which every attempt up to the remaining budget fails
retryably: the loop stops with the error of the last allowed attempt after
sleeping the full backoff schedule. -/
theorem attemptUploadAux_conflict_run {α : Type} (upload : Nat → Except JsError α) :
    ∀ (b r : Nat),
      (∀ k, r ≤ k → k ≤ r + b → ∃ e, upload k = .error e ∧ isRetryable e = true) →
      ∃ e, upload (r + b) = .error e ∧
        attemptUploadAux upload r b =
          (.error e, (List.range b).map (fun t => 2 ^ (r + t + 1) * 500)) := by
  intro b
  induction b with
  | zero =>
    intro r hconf
    obtain ⟨e, he, hre⟩ := hconf r le_rfl (by omega)
    refine ⟨e, by simpa using he, ?_⟩
    unfold attemptUploadAux
    simp [he, hre]
  | succ b ih =>
    intro r hconf
    obtain ⟨e, he, hre⟩ := hconf r le_rfl (by omega)
    obtain ⟨e2, he2, hrun⟩ := ih (r + 1) (fun k h1 h2 => hconf k (by omega) (by omega))
    refine ⟨e2, ?_, ?_⟩
    · have harith : r + 1 + b = r + (b + 1) := by omega
      rw [← harith]
      exact he2
    · unfold attemptUploadAux
      simp only [he, hre, if_true]
      rw [hrun]
      have hfun : ((fun t => 2 ^ (r + t + 1) * 500) ∘ Nat.succ) =
          (fun t => 2 ^ (r + 1 + t + 1) * 500) := by
        funext t
        simp only [Function.comp_apply, Nat.succ_eq_add_one]
        have harith : r + (t + 1) + 1 = r + 1 + t + 1 := by omega
        rw [harith]
      simp [List.range_succ_eq_map, List.map_map, hfun]

/-! ### Concrete fixtures used in evaluations and witnesses -/

def itemNew : QueueItem := ⟨"uploads/new.png", "QUFB", "new.png", 1, "image/png", 2⟩

def itemOld : QueueItem := ⟨"uploads/old.png", "QUFB", "old.png", 1, "image/png", 1⟩

def entryNew : RawEntry := ⟨some itemNew, 10⟩

def entryOld : RawEntry := ⟨some itemOld, 10⟩

/-- A 101-entry shared-queue state: 100 copies of `entryNew` on the head
(`lpush`) side and `entryOld` at the tail, i.e. `entryOld` is the oldest
enqueued item. -/
def s101 : RedisState := ⟨true, List.replicate 100 entryNew ++ [entryOld], false⟩

/-- A ready one-item shared-queue state (enabled, unlocked). -/
def sReady : RedisState := ⟨true, [entryNew], false⟩

/-- A state whose lock is currently held (by some other process). -/
def sHeld : RedisState := ⟨true, [], true⟩

/-- An oversized single entry relative to a tiny byte budget. -/
def bigItem : QueueItem := ⟨"uploads/big.png", "QUFB", "big.png", 9, "image/png", 5⟩

def bigEntry : RawEntry := ⟨some bigItem, 10⟩

def sBig : RedisState := ⟨true, [bigEntry], false⟩

def ioOk : RedisIO := ⟨false, false, false⟩

def ioSizeFail : RedisIO := ⟨false, true, false⟩

def apiOk : GitApi :=
  ⟨.ok "headsha", fun _ => .ok "treesha", fun _ => .ok "blobsha",
    fun _ _ => .ok "newtree", fun _ _ _ => .ok "newsha", fun _ => .ok ()⟩

/-- All steps succeed except the final ref update, which is rejected with the
conflict status 409. -/
def apiConflict : GitApi := { apiOk with updateRef := fun _ => .error ⟨some 409⟩ }

/-- All steps succeed except the final ref update, which fails with a
non-conflict status. -/
def apiServerErr : GitApi := { apiOk with updateRef := fun _ => .error ⟨some 500⟩ }

/-- Attempt-indexed oracle family: the first attempt hits a 409 conflict on
`updateRef`, every later attempt succeeds. -/
def apisRetry : Nat → GitApi := fun k => if k = 0 then apiConflict else apiOk

def apisOk : Nat → GitApi := fun _ => apiOk

/-- Oracle whose `createCommit` reflects the commit message back as the
resulting sha, making the message observable in the result. -/
def obsApi : GitApi :=
  ⟨.ok "headsha", fun _ => .ok "treesha", fun _ => .ok "blobsha",
    fun _ _ => .ok "newtree", fun msg _ _ => .ok msg, fun _ => .ok ()⟩

def ephA : EphItem := ⟨"uploads/a.png", "QUFB", "a.png", 4, "image/png"⟩

def qaItem : QueueItem := ⟨"uploads/a.png", "QUFB", "a.png", 3, "image/png", 1⟩

def qbItem : QueueItem := ⟨"uploads/b.png", "QUFB", "b.png", 3, "image/png", 1⟩

def qcItem : QueueItem := ⟨"uploads/c.png", "QUFB", "c.png", 3, "image/png", 1⟩

/-- An upload oracle that conflicts on the first attempt and then succeeds. -/
def upRetryOnce : Nat → Except JsError Nat :=
  fun k => if k = 0 then .error ⟨some 409⟩ else .ok 7

/-- Case analysis of one `processQueue` run: either the run does not commit —
then the queue list is untouched and a `failure` outcome always ends with the
lock key deleted — or it commits: the batch-commit sequence succeeded on the
fetched items, the outcome reports their count, and exactly that many entries
are popped from the tail of the list before the lock is released. -/
theorem processQueue_shape (isS : Bool) (th now : Nat) (io : RedisIO)
    (api : GitApi) (s : RedisState) :
    ((processQueue isS th now io api s).1.isSuccess = false ∧
      (processQueue isS th now io api s).2.list = s.list ∧
      ((processQueue isS th now io api s).1 = .failure →
        (processQueue isS th now io api s).2.lockHeld = false)) ∨
    (s.enabled = true ∧ s.lockHeld = false ∧
      ∃ sha,
        processCommit api
          (RedisUploadQueue.getItems s MAX_BATCH_SIZE PQ_GETITEMS_MAX_BYTES) =
            .ok sha ∧
        processQueue isS th now io api s =
          (.success (RedisUploadQueue.getItems s MAX_BATCH_SIZE
              PQ_GETITEMS_MAX_BYTES).length sha,
            { s with
              list := RedisUploadQueue.removeItemsList
                (RedisUploadQueue.getItems s MAX_BATCH_SIZE
                  PQ_GETITEMS_MAX_BYTES).length s.list,
              lockHeld := false })) := by
  cases hdis : (!s.enabled || isS)
  case true =>
    left
    simp [processQueue, hdis, PQOutcome.isSuccess]
  case false =>
  have hen : s.enabled = true := by
    revert hdis
    cases s.enabled <;> simp
  have hrel : RedisUploadQueue.releaseLock s = { s with lockHeld := false } := by
    simp [RedisUploadQueue.releaseLock, hen]
  cases hsp : io.spFails
  case true =>
    left
    simp [processQueue, hdis, hsp, hrel, PQOutcome.isSuccess]
  case false =>
  cases hsz : io.sizeFails
  case true =>
    left
    simp [processQueue, hdis, hsp, hsz, hrel, PQOutcome.isSuccess]
  case false =>
  cases hold : io.oldestFails
  case true =>
    left
    simp [processQueue, hdis, hsp, hsz, hold, hrel, PQOutcome.isSuccess]
  case false =>
  cases hsp2 : RedisUploadQueue.shouldProcess s
  case false =>
    left
    simp [processQueue, hdis, hsp, hsz, hold, hsp2, PQOutcome.isSuccess]
  case true =>
  cases hnr : (!pqIsOldEnough now s && !pqIsFull th s)
  case true =>
    left
    simp [processQueue, hdis, hsp, hsz, hold, hsp2, hnr, PQOutcome.isSuccess]
  case false =>
  cases hl : s.lockHeld
  case true =>
    have hacq : RedisUploadQueue.acquireLock s = (false, s) := by
      simp [RedisUploadQueue.acquireLock, hen, hl]
    left
    simp [processQueue, hdis, hsp, hsz, hold, hsp2, hnr, hacq, PQOutcome.isSuccess]
  case false =>
  have hacq : RedisUploadQueue.acquireLock s = (true, { s with lockHeld := true }) := by
    simp [RedisUploadQueue.acquireLock, hen, hl]
  have hitems : RedisUploadQueue.getItems { s with lockHeld := true }
      MAX_BATCH_SIZE PQ_GETITEMS_MAX_BYTES =
      RedisUploadQueue.getItems s MAX_BATCH_SIZE PQ_GETITEMS_MAX_BYTES := rfl
  have hrel2 : RedisUploadQueue.releaseLock
      (RedisUploadQueue.releaseLock { s with lockHeld := true }) =
      { s with lockHeld := false } := by
    simp [RedisUploadQueue.releaseLock, hen]
  by_cases hni : (RedisUploadQueue.getItems s MAX_BATCH_SIZE
      PQ_GETITEMS_MAX_BYTES).length = 0
  · left
    simp [processQueue, hdis, hsp, hsz, hold, hsp2, hnr, hacq, hitems, hni, hrel2,
      PQOutcome.isSuccess]
  · cases hpc : processCommit api
        (RedisUploadQueue.getItems s MAX_BATCH_SIZE PQ_GETITEMS_MAX_BYTES) with
    | error e =>
      left
      simp [processQueue, hdis, hsp, hsz, hold, hsp2, hnr, hacq, hitems, hni, hpc,
        hrel2, PQOutcome.isSuccess]
    | ok sha =>
      right
      refine ⟨hen, rfl, sha, rfl, ?_⟩
      have hfin : RedisUploadQueue.releaseLock
          (RedisUploadQueue.removeItems
            (RedisUploadQueue.getItems s MAX_BATCH_SIZE
              PQ_GETITEMS_MAX_BYTES).length
            { s with lockHeld := true }) =
          { s with
            list := RedisUploadQueue.removeItemsList
              (RedisUploadQueue.getItems s MAX_BATCH_SIZE
                PQ_GETITEMS_MAX_BYTES).length s.list,
            lockHeld := false } := by
        simp [RedisUploadQueue.releaseLock, RedisUploadQueue.removeItems, hen]
      simp [processQueue, hdis, hsp, hsz, hold, hsp2, hnr, hacq, hitems, hni, hpc,
        hfin]

/-! ### Claim theorems -/

/-- C10: `getAutoSubmitThreshold` returns the override parsed as an integer
when the parse succeeds with a positive value, and the fixed default 20 when
the override is unset, fails to parse, or is non-positive. -/
theorem claim_C10_threshold (env : Option String) :
    (env = none → getAutoSubmitThreshold env = 20) ∧
    (∀ raw n, env = some raw → jsParseInt raw = some n → 0 < n →
      getAutoSubmitThreshold env = n) ∧
    (∀ raw, env = some raw → jsParseInt raw = none →
      getAutoSubmitThreshold env = 20) ∧
    (∀ raw n, env = some raw → jsParseInt raw = some n → n ≤ 0 →
      getAutoSubmitThreshold env = 20) := by
  refine ⟨?_, ?_, ?_, ?_⟩
  · intro h
    subst h
    rfl
  · intro raw n h hp hpos
    subst h
    have hraw : ¬ raw = "" := by
      intro hje
      subst hje
      have hnone : jsParseInt "" = none := rfl
      rw [hnone] at hp
      cases hp
    simp [getAutoSubmitThreshold, hraw, hp, hpos]
  · intro raw h hn
    subst h
    by_cases hraw : raw = ""
    · subst hraw
      rfl
    · simp [getAutoSubmitThreshold, hraw, hn]
  · intro raw n h hp hneg
    subst h
    have hraw : ¬ raw = "" := by
      intro hje
      subst hje
      have hnone : jsParseInt "" = none := rfl
      rw [hnone] at hp
      cases hp
    have hnpos : ¬ 0 < n := by omega
    simp [getAutoSubmitThreshold, hraw, hp, hnpos]

/-- Witness for C10 at concrete override values. -/
theorem claim_C10_threshold_witness :
    jsParseInt "42" = some 42 ∧ getAutoSubmitThreshold (some "42") = 42 ∧
    getAutoSubmitThreshold (some "abc") = 20 ∧
    getAutoSubmitThreshold (some "-5") = 20 ∧ getAutoSubmitThreshold none = 20 :=
  ⟨rfl,
    (claim_C10_threshold (some "42")).2.1 "42" 42 rfl rfl (by decide),
    (claim_C10_threshold (some "abc")).2.2.1 "abc" rfl rfl,
    (claim_C10_threshold (some "-5")).2.2.2 "-5" (-5) rfl (by decide) (by decide),
    (claim_C10_threshold none).1 rfl⟩

/-- C8: with the backend enabled, `shouldProcess` is true exactly when the
queue is non-empty and the lock key is absent, and false exactly when the
queue is empty or the lock is held. -/
theorem claim_C8_shouldProcess (s : RedisState) (hen : s.enabled = true) :
    (RedisUploadQueue.shouldProcess s = true ↔
      0 < s.list.length ∧ s.lockHeld = false) ∧
    (RedisUploadQueue.shouldProcess s = false ↔
      s.list.length = 0 ∨ s.lockHeld = true) := by
  unfold RedisUploadQueue.shouldProcess RedisUploadQueue.size
  by_cases h0 : s.list.length = 0 <;> cases hl : s.lockHeld <;>
    · simp [hen, h0, hl]
      try omega

/-- Witness for C8: a one-item unlocked queue may be processed; an empty
unlocked queue may not. -/
theorem claim_C8_shouldProcess_witness :
    RedisUploadQueue.shouldProcess sReady = true ∧
    RedisUploadQueue.shouldProcess ⟨true, [], false⟩ = false :=
  ⟨(claim_C8_shouldProcess sReady rfl).1.mpr (by decide),
    (claim_C8_shouldProcess ⟨true, [], false⟩ rfl).2.mpr (Or.inl rfl)⟩

/-- C6: when any of the three pre-lock Redis reads throws, `processQueue`
lands in the outer catch, which deletes the lock key unconditionally — the
final state has the lock absent no matter who held it, even though this run
never acquired it. -/
theorem claim_C6_lock_clobber (isS : Bool) (th now : Nat) (io : RedisIO)
    (api : GitApi) (s : RedisState) (hen : s.enabled = true) (hns : isS = false)
    (hfail : io.spFails = true ∨ io.sizeFails = true ∨ io.oldestFails = true) :
    processQueue isS th now io api s = (.failure, { s with lockHeld := false }) := by
  subst hns
  rcases hfail with hf | hf | hf <;>
    · unfold processQueue
      by_cases h1 : io.spFails = true <;> by_cases h2 : io.sizeFails = true <;>
        simp [hen, hf, h1, h2, RedisUploadQueue.releaseLock]

/-- Witness for C6: a run against a state whose lock is held by another
process, failing at the `size()` read, still deletes that lock. -/
theorem claim_C6_lock_clobber_witness :
    sHeld.lockHeld = true ∧
    processQueue false 20 0 ioSizeFail apiOk sHeld =
      (.failure, { sHeld with lockHeld := false }) :=
  ⟨rfl, claim_C6_lock_clobber false 20 0 ioSizeFail apiOk sHeld rfl rfl
    (Or.inr (Or.inl rfl))⟩

/-- C7 (amended): `getItems` returns the parseable items of an initial raw
segment (parse failures inside it are skipped, not fatal), never more than
`maxItems` items, and the cumulative serialized size of that segment stays
within `maxBytes` except when the result is a single item whose own size
already exceeds the budget. -/
theorem claim_C7_getItems_limits (s : RedisState) (maxItems maxBytes : Nat) :
    ∃ m, RedisUploadQueue.getItems s maxItems maxBytes = parsedOf (s.list.take m) ∧
      (RedisUploadQueue.getItems s maxItems maxBytes).length ≤ maxItems ∧
      (weightOf (s.list.take m) ≤ maxBytes ∨
        (RedisUploadQueue.getItems s maxItems maxBytes).length = 1) := by
  by_cases hen : s.enabled
  · obtain ⟨m, h1, h2, h3⟩ := RedisUploadQueue.getItemsB_spec s.list maxItems maxBytes
    have hres : RedisUploadQueue.getItems s maxItems maxBytes =
        parsedOf (s.list.take m) := by
      simp [RedisUploadQueue.getItems, hen, h1]
    refine ⟨m, hres, by rw [hres]; exact h2, ?_⟩
    rcases h3 with h | h
    · exact Or.inl h
    · right
      rw [hres]
      exact h
  · refine ⟨0, ?_, ?_, Or.inl ?_⟩
    · simp [RedisUploadQueue.getItems, hen, parsedOf]
    · simp [RedisUploadQueue.getItems, hen]
    · simp [weightOf]

/-- Counterexample for C7 as stated: with `maxBytes = 1` and a queue holding
one parseable entry of serialized size 10, `getItems` still returns that
item, so the cumulative serialized byte size of the returned batch (the
`currentBytes` accumulator) exceeds `maxBytes`. -/
theorem claim_C7_counterexample :
    RedisUploadQueue.getItems sBig 100 1 = [bigItem] ∧
    (RedisUploadQueue.getItemsB sBig.list 100 1).2 = 10 ∧
    1 < (RedisUploadQueue.getItemsB sBig.list 100 1).2 :=
  ⟨rfl, rfl, by decide⟩

set_option maxRecDepth 1000000 in
/-- C1 (code bug): evaluation of a full successful `processQueue` run over a
101-entry queue (`entryOld` oldest, at the tail).  The fetched batch —
`lrange` from index 0, the `lpush` side — consists of the 100 *newest* items
and never contains the oldest item, yet `removeItems` pops 100 entries from
the tail: the run reports success, the remaining queue holds one `entryNew`
(already committed, will be committed again), and `entryOld` — still pending,
never committed — has been deleted. -/
theorem claim_C1_oldest_dropped :
    processQueue false 20 10000 ioOk apiOk s101 =
      (.success 100 "newsha", ⟨true, [entryNew], false⟩) ∧
    RedisUploadQueue.getItems s101 MAX_BATCH_SIZE PQ_GETITEMS_MAX_BYTES =
      List.replicate 100 itemNew ∧
    itemOld ∉ RedisUploadQueue.getItems s101 MAX_BATCH_SIZE PQ_GETITEMS_MAX_BYTES ∧
    entryOld ∈ s101.list ∧
    entryOld ∉ (processQueue false 20 10000 ioOk apiOk s101).2.list := by
  have h1 : processQueue false 20 10000 ioOk apiOk s101 =
      (.success 100 "newsha", ⟨true, [entryNew], false⟩) := rfl
  refine ⟨h1, rfl, by decide, by decide, ?_⟩
  rw [h1]
  decide

/-- Computed form of one `processBatch` run whose retry loop succeeds. -/
theorem processBatch_run_ok {queue : List EphItem} {apis : Nat → GitApi}
    {o r b : String} {rs : List BatchResult} (hq : ¬ queue.length = 0)
    (hatt : (attemptUpload (fun k =>
      uploadBatch (apis k) (queue.take MAX_BATCH_SIZE) o r b)).1 = .ok rs) :
    processBatch queue false apis o r b =
      ⟨queue.take MAX_BATCH_SIZE,
        (List.range (queue.take MAX_BATCH_SIZE).length).map
          (fun i => .resolved (rs.get? i)),
        queue.drop MAX_BATCH_SIZE,
        (attemptUpload (fun k =>
          uploadBatch (apis k) (queue.take MAX_BATCH_SIZE) o r b)).2⟩ := by
  unfold processBatch
  rw [if_neg (by simp : ¬ (false = true)), if_neg hq]
  dsimp only
  simp only [hatt]

/-- Computed form of one `processBatch` run whose retry loop fails. -/
theorem processBatch_run_error {queue : List EphItem} {apis : Nat → GitApi}
    {o r b : String} {e : JsError} (hq : ¬ queue.length = 0)
    (hatt : (attemptUpload (fun k =>
      uploadBatch (apis k) (queue.take MAX_BATCH_SIZE) o r b)).1 = .error e) :
    processBatch queue false apis o r b =
      ⟨queue.take MAX_BATCH_SIZE,
        (queue.take MAX_BATCH_SIZE).map (fun _ => .rejected e),
        queue.drop MAX_BATCH_SIZE,
        (attemptUpload (fun k =>
          uploadBatch (apis k) (queue.take MAX_BATCH_SIZE) o r b)).2⟩ := by
  unfold processBatch
  rw [if_neg (by simp : ¬ (false = true)), if_neg hq]
  dsimp only
  simp only [hatt]

/-- C4: a flush over a non-empty queue completes every spliced item exactly
once, all-or-nothing: on retry-loop success each positional completion is
`resolved` with the result at the same index (always present, since
`uploadBatch` returns one result per item); on failure every item is
`rejected` with the same terminating error. -/
theorem claim_C4_all_or_nothing (queue : List EphItem) (apis : Nat → GitApi)
    (o r b : String) (hq : queue ≠ []) :
    (processBatch queue false apis o r b).batch = queue.take MAX_BATCH_SIZE ∧
    (processBatch queue false apis o r b).completions.length =
      (processBatch queue false apis o r b).batch.length ∧
    ((∃ rs,
        (attemptUpload (fun k =>
          uploadBatch (apis k) (queue.take MAX_BATCH_SIZE) o r b)).1 = .ok rs ∧
        rs.length = (queue.take MAX_BATCH_SIZE).length ∧
        ∀ i, i < (queue.take MAX_BATCH_SIZE).length →
          (processBatch queue false apis o r b).completions.get? i =
            some (.resolved (rs.get? i)) ∧ (rs.get? i).isSome = true) ∨
      (∃ e,
        (attemptUpload (fun k =>
          uploadBatch (apis k) (queue.take MAX_BATCH_SIZE) o r b)).1 = .error e ∧
        ∀ c ∈ (processBatch queue false apis o r b).completions,
          c = .rejected e)) := by
  have hne : ¬ queue.length = 0 := by simpa [List.length_eq_zero] using hq
  cases hatt : (attemptUpload (fun k =>
      uploadBatch (apis k) (queue.take MAX_BATCH_SIZE) o r b)).1 with
  | ok rs =>
    rw [processBatch_run_ok hne hatt]
    obtain ⟨k, hk⟩ := attemptUploadAux_ok_exists
      (fun k => uploadBatch (apis k) (queue.take MAX_BATCH_SIZE) o r b)
      MAX_RETRIES 0 rs hatt
    obtain ⟨sha, hshape⟩ := uploadBatch_ok_shape hk
    have hlen : rs.length = (queue.take MAX_BATCH_SIZE).length := by
      rw [hshape, List.length_map]
    refine ⟨rfl, by simp, Or.inl ⟨rs, rfl, hlen, ?_⟩⟩
    intro i hi
    have hi2 : i < MAX_BATCH_SIZE ⊓ queue.length := by
      simpa [List.length_take] using hi
    constructor
    · simp [List.get?_eq_getElem?, List.getElem?_map, List.getElem?_range, hi2]
    · cases hrs : rs.get? i with
      | none =>
        have := List.get?_eq_none.mp hrs
        omega
      | some v => rfl
  | error e =>
    rw [processBatch_run_error hne hatt]
    refine ⟨rfl, by simp, Or.inr ⟨e, rfl, ?_⟩⟩
    intro c hc
    obtain ⟨x, _, hcx⟩ := List.mem_map.mp hc
    exact hcx.symm

/-- Witness for C4: a singleton flush against an all-ok oracle family
resolves its single item with the positional result. -/
theorem claim_C4_all_or_nothing_witness :
    ([ephA] : List EphItem) ≠ [] ∧
    ((processBatch [ephA] false apisOk "ow" "re" "main").batch =
        [ephA].take MAX_BATCH_SIZE ∧
      (processBatch [ephA] false apisOk "ow" "re" "main").completions.length =
        (processBatch [ephA] false apisOk "ow" "re" "main").batch.length ∧
      ((∃ rs,
          (attemptUpload (fun k =>
            uploadBatch (apisOk k) ([ephA].take MAX_BATCH_SIZE) "ow" "re"
              "main")).1 = .ok rs ∧
          rs.length = ([ephA].take MAX_BATCH_SIZE).length ∧
          ∀ i, i < ([ephA].take MAX_BATCH_SIZE).length →
            (processBatch [ephA] false apisOk "ow" "re" "main").completions.get? i =
              some (.resolved (rs.get? i)) ∧ (rs.get? i).isSome = true) ∨
        (∃ e,
          (attemptUpload (fun k =>
            uploadBatch (apisOk k) ([ephA].take MAX_BATCH_SIZE) "ow" "re"
              "main")).1 = .error e ∧
          ∀ c ∈ (processBatch [ephA] false apisOk "ow" "re" "main").completions,
            c = .rejected e))) :=
  ⟨by decide, claim_C4_all_or_nothing [ephA] apisOk "ow" "re" "main" (by decide)⟩

set_option maxRecDepth 1000000 in
/-- C9: the commit message is the joined original file names with the
`Upload image:` or `Batch upload N images:` framing; for multi-file batches
the joined names are cut at 100 characters and an ellipsis marker is
appended exactly when they are longer; the 3-item batch a.png, b.png, c.png
produces exactly the expected message through the committer. -/
theorem claim_C9_commit_message :
    processCommit obsApi [qaItem, qbItem, qcItem] =
      .ok "Batch upload 3 images: a.png, b.png, c.png" ∧
    (∀ names, commitMessage 1 names = "Upload image: " ++ names) ∧
    (∀ n names, 1 < n → names.length ≤ 100 →
      commitMessage n names =
        "Batch upload " ++ toString n ++ " images: " ++ names) ∧
    (∀ n names, 1 < n → 100 < names.length →
      commitMessage n names =
        "Batch upload " ++ toString n ++ " images: " ++ names.take 100 ++ "...") := by
  refine ⟨rfl, ?_, ?_, ?_⟩
  · intro names
    simp [commitMessage]
  · intro n names h1 hlen
    unfold commitMessage
    rw [if_neg (by omega : ¬ n = 1), if_neg (by omega : ¬ 100 < names.length),
      String.take_eq]
    have hdata : names.data.take 100 = names.data := by
      apply List.take_of_length_le
      exact hlen
    rw [hdata]
    simp
  · intro n names h1 hlen
    unfold commitMessage
    rw [if_neg (by omega : ¬ n = 1), if_pos hlen]

/-- Witness for C9: a 2-file batch whose joined names have 101 characters is
truncated to 100 characters plus the ellipsis marker. -/
theorem claim_C9_commit_message_witness :
    commitMessage 2 (String.mk (List.replicate 101 'a')) =
      "Batch upload " ++ toString 2 ++ " images: " ++
        (String.mk (List.replicate 101 'a')).take 100 ++ "..." :=
  claim_C9_commit_message.2.2.2 2 (String.mk (List.replicate 101 'a'))
    (by decide) (by decide)

/-- C3: in every `processQueue` run, items are removed only after the commit
sequence succeeded: any non-success outcome leaves the queue list exactly as
it was (so the items stay available for a future run), every `failure`
outcome ends with the lock released, and a success outcome removes exactly
the fetched count from the tail. -/
theorem claim_C3_no_removal_without_commit (isS : Bool) (th now : Nat)
    (io : RedisIO) (api : GitApi) (s : RedisState) :
    ((processQueue isS th now io api s).1.isSuccess = false →
      (processQueue isS th now io api s).2.list = s.list) ∧
    ((processQueue isS th now io api s).1 = .failure →
      (processQueue isS th now io api s).2.lockHeld = false) ∧
    (∀ n sha, (processQueue isS th now io api s).1 = .success n sha →
      n = (RedisUploadQueue.getItems s MAX_BATCH_SIZE PQ_GETITEMS_MAX_BYTES).length ∧
      processCommit api
        (RedisUploadQueue.getItems s MAX_BATCH_SIZE PQ_GETITEMS_MAX_BYTES) =
          .ok sha ∧
      (processQueue isS th now io api s).2.list =
        RedisUploadQueue.removeItemsList n s.list) := by
  rcases processQueue_shape isS th now io api s with ⟨h1, h2, h3⟩ |
    ⟨hen, hl, sha, hpc, heq⟩
  · refine ⟨fun _ => h2, h3, ?_⟩
    intro n sha2 hsucc
    exfalso
    rw [hsucc] at h1
    simp [PQOutcome.isSuccess] at h1
  · refine ⟨?_, ?_, ?_⟩
    · intro hns
      exfalso
      rw [heq] at hns
      simp [PQOutcome.isSuccess] at hns
    · intro hf
      exfalso
      rw [heq] at hf
      simp at hf
    · intro n sha2 hsucc
      rw [heq] at hsucc
      simp only [PQOutcome.success.injEq] at hsucc
      refine ⟨hsucc.1.symm, ?_, ?_⟩
      · rw [← hsucc.2]
        exact hpc
      · rw [heq, ← hsucc.1]

/-- Witness for C3: a run whose ref update fails with a 500 leaves the
one-item queue untouched and the lock free. -/
theorem claim_C3_no_removal_without_commit_witness :
    (processQueue false 20 10000 ioOk apiServerErr sReady).2.list = sReady.list ∧
    (processQueue false 20 10000 ioOk apiServerErr sReady).2.lockHeld = false :=
  ⟨(claim_C3_no_removal_without_commit false 20 10000 ioOk apiServerErr sReady).1
      (by decide),
    (claim_C3_no_removal_without_commit false 20 10000 ioOk apiServerErr sReady).2.1
      (by decide)⟩

/-- C2 (amended): the conflict-retry policy — statuses 409/422 retried from
the first step with backoff delay `500 · 2 ^ attempt`, up to 3 additional
attempts, any other error aborting immediately — holds for the Ephemeral
Queue's retry loop only; the Queue Processor performs the commit sequence
once, and an error there (conflict or not) makes the run fail with no
retry. -/
theorem claim_C2_retry_policy :
    (∀ (α : Type) (upload : Nat → Except JsError α) (e : JsError),
      upload 0 = .error e → isRetryable e = false →
      attemptUpload upload = (.error e, [])) ∧
    (∀ (α : Type) (upload : Nat → Except JsError α) (j : Nat) (a : α),
      j ≤ MAX_RETRIES →
      (∀ k, k < j → ∃ e, upload k = .error e ∧ isRetryable e = true) →
      upload j = .ok a →
      attemptUpload upload =
        (.ok a, (List.range j).map (fun t => 2 ^ (t + 1) * 500))) ∧
    (∀ (α : Type) (upload : Nat → Except JsError α),
      (∀ k, k ≤ MAX_RETRIES → ∃ e, upload k = .error e ∧ isRetryable e = true) →
      ∃ e, upload MAX_RETRIES = .error e ∧
        attemptUpload upload = (.error e, [1000, 2000, 4000])) ∧
    (∀ (isS : Bool) (th now : Nat) (io : RedisIO) (api : GitApi) (s : RedisState)
      (e : JsError),
      processCommit api
        (RedisUploadQueue.getItems s MAX_BATCH_SIZE PQ_GETITEMS_MAX_BYTES) =
          .error e →
      ∀ n sha, (processQueue isS th now io api s).1 ≠ .success n sha) := by
  refine ⟨?_, ?_, ?_, ?_⟩
  · intro α upload e he hre
    unfold attemptUpload attemptUploadAux
    simp [he, hre]
  · intro α upload j a hj hconf hok
    have h := attemptUploadAux_ok_run upload j MAX_RETRIES 0 a hj
      (fun k h1 h2 => hconf k (by omega)) (by simpa using hok)
    simpa using h
  · intro α upload hconf
    obtain ⟨e, he, hrun⟩ := attemptUploadAux_conflict_run upload MAX_RETRIES 0
      (fun k h1 h2 => hconf k (by simpa using h2))
    refine ⟨e, by simpa using he, ?_⟩
    unfold attemptUpload
    rw [hrun]
    rfl
  · intro isS th now io api s e hpc n sha hsucc
    rcases processQueue_shape isS th now io api s with ⟨h1, _, _⟩ |
      ⟨_, _, sha2, hpc2, _⟩
    · rw [hsucc] at h1
      simp [PQOutcome.isSuccess] at h1
    · rw [hpc] at hpc2
      cases hpc2

/-- Witness for C2 (amended): an upload that conflicts once and then
succeeds is retried exactly once with a 1000ms backoff. -/
theorem claim_C2_retry_policy_witness :
    attemptUpload upRetryOnce = (.ok 7, [1000]) := by
  have h := claim_C2_retry_policy.2.1 Nat upRetryOnce 1 7 (by decide)
    (fun k hk => by
      have hk0 : k = 0 := by omega
      subst hk0
      exact ⟨⟨some 409⟩, rfl, rfl⟩)
    rfl
  simpa using h

/-- Counterexample for C2 as stated: with an attempt family whose first
attempt is rejected with status 409 and whose later attempts would succeed,
the Queue Processor run over a ready shared queue reports `failure` — it
never retries — while the Ephemeral Queue flush under the very same attempt
family retries once (backoff 1000ms) and resolves its item. -/
theorem claim_C2_counterexample :
    (processQueue false 20 10000 ioOk apiConflict sReady).1 = .failure ∧
    (processBatch [ephA] false apisRetry "ow" "re" "main").completions =
      [.resolved (some (mkBatchResult "ow" "re" "main" "newsha" 1 ephA))] ∧
    (processBatch [ephA] false apisRetry "ow" "re" "main").delays = [1000] :=
  ⟨rfl, rfl, rfl⟩

/-- C5: a flush of either backend hands the committer at most
`MAX_BATCH_SIZE = 100` items: the ephemeral queue splices off at most 100
items, and `getItems` called with `maxItems = 100` returns at most 100. -/
theorem claim_C5_batch_bound :
    (∀ (queue : List EphItem) (lock : Bool) (apis : Nat → GitApi) (o r b : String),
      (processBatch queue lock apis o r b).batch.length ≤ MAX_BATCH_SIZE) ∧
    (∀ (s : RedisState) (maxBytes : Nat),
      (RedisUploadQueue.getItems s MAX_BATCH_SIZE maxBytes).length ≤
        MAX_BATCH_SIZE) := by
  constructor
  · intro queue lock apis o r b
    unfold processBatch
    split
    · simp
    · split
      · simp
      · dsimp only
        split <;>
          · simp only [List.length_take]
            omega
  · intro s maxBytes
    by_cases hen : s.enabled
    · obtain ⟨m, h1, h2, _⟩ :=
        RedisUploadQueue.getItemsB_spec s.list MAX_BATCH_SIZE maxBytes
      have hres : RedisUploadQueue.getItems s MAX_BATCH_SIZE maxBytes =
          parsedOf (s.list.take m) := by
        simp [RedisUploadQueue.getItems, hen, h1]
      rw [hres]
      exact h2
    · simp [RedisUploadQueue.getItems, hen]

end Picser
